import Mathlib

/-!
Shallow embedding of `data_cleaning_project1.py`, a single linear script that
builds a six-row in-memory survey dataset, applies a fixed sequence of
cleaning transformations to a copy of it, and reports diagnostic counts.

Conventions of the embedding:
* a pandas cell that can be NaN/None is an `Option` value (`none` = missing);
* numbers are `Rat` (the script only ever produces exact halves of integer
  sums, so rationals agree with the float computation on every value that the
  claims mention);
* text cells are `String`, and the Python string methods `strip`, `title`,
  `lower` are modelled character-by-character for the ASCII range (all data in
  the script is ASCII);
* the single library call `pd.to_datetime(..., errors='coerce')` (line 134 of
  the script) is modelled by `parseDate`, a per-element parser scoped to
  dates made of three numeric fields with a four-digit year, following the
  documented dateutil resolution order on that shape (month before day, with
  a day-first fallback when the month position exceeds 12); a value of that
  shape with no calendar reading is coerced to the `none` marker (pandas
  `NaT`) rather than an error, as the library does.  The library has further
  parse paths (month-name dates and the like) that the model does not cover:
  on those values `parseDate` returns `none` by scope, and no theorem reads
  anything off the model there.
-/

/-- Characters: ASCII lower-casing, as in Python `str.lower` (line 113). -/
def downChar (c : Char) : Char :=
  if 65 ≤ c.toNat ∧ c.toNat ≤ 90 then Char.ofNat (c.toNat + 32) else c

/-- Characters: ASCII upper-casing, used by Python `str.title` (lines 109/117/121). -/
def upChar (c : Char) : Char :=
  if 97 ≤ c.toNat ∧ c.toNat ≤ 122 then Char.ofNat (c.toNat - 32) else c

/-- ASCII letter test ("cased character" for Python `str.title`). -/
def isAlphaChar (c : Char) : Bool :=
  decide ((65 ≤ c.toNat ∧ c.toNat ≤ 90) ∨ (97 ≤ c.toNat ∧ c.toNat ≤ 122))

/-- ASCII whitespace as stripped by Python `str.strip`. -/
def isSpaceChar (c : Char) : Bool :=
  decide (c.toNat = 32 ∨ c.toNat = 9 ∨ c.toNat = 10 ∨ c.toNat = 13 ∨
          c.toNat = 11 ∨ c.toNat = 12)

/-- Remove leading whitespace. -/
def lstripL (l : List Char) : List Char := l.dropWhile isSpaceChar

/-- Remove trailing whitespace. -/
def rstripL (l : List Char) : List Char := (l.reverse.dropWhile isSpaceChar).reverse

/-- Python `str.strip`: remove surrounding whitespace. -/
def stripL (l : List Char) : List Char := rstripL (lstripL l)

/-- Python `str.title` on a character list; the boolean state records whether
the previous character was a cased (alphabetic) one. -/
def titleAux (prev : Bool) : List Char → List Char
  | [] => []
  | c :: cs =>
    if isAlphaChar c then
      (if prev then downChar c else upChar c) :: titleAux true cs
    else
      c :: titleAux false cs

/-- Python `str.title` on a character list. -/
def titleL (l : List Char) : List Char := titleAux false l

/-- Python `str.lower` on a character list. -/
def lowerL (l : List Char) : List Char := l.map downChar

/-- Python `s.strip()` on strings. -/
def pyStrip (s : String) : String := ⟨stripL s.data⟩

/-- Python `s.strip().title()`-style title-casing on strings. -/
def pyTitle (s : String) : String := ⟨titleL s.data⟩

/-- Python `s.lower()` on strings. -/
def pyLower (s : String) : String := ⟨lowerL s.data⟩

/-- Line 123 of the script: map the literal "Maybe" to "No", anything else kept. -/
def mapMaybeNo (s : String) : String := if s = "Maybe" then "No" else s

/-- Lines 121-123: `would_recommend` is stripped, title-cased and then the
"Maybe" to "No" replacement is applied. -/
def normWouldRecommend (s : String) : String := mapMaybeNo (pyTitle (pyStrip s))

/-- Decimal digit value of a character, `none` for non-digits. -/
def digitVal? (c : Char) : Option Nat :=
  if 48 ≤ c.toNat ∧ c.toNat ≤ 57 then some (c.toNat - 48) else none

/-- Accumulating decimal reader over characters. -/
def parseNumAux (acc : Nat) : List Char → Option Nat
  | [] => some acc
  | c :: cs =>
    match digitVal? c with
    | some v => parseNumAux (10 * acc + v) cs
    | none => none

/-- Read a nonempty all-digit token as a number. -/
def parseNumL (l : List Char) : Option Nat :=
  match l with
  | [] => none
  | _ :: _ => parseNumAux 0 l

/-- Split a character list at every occurrence of the separator. -/
def splitOnChar (sep : Char) : List Char → List (List Char)
  | [] => [[]]
  | c :: cs =>
    if c = sep then [] :: splitOnChar sep cs
    else
      match splitOnChar sep cs with
      | [] => [[c]]
      | t :: ts => (c :: t) :: ts

/-- A calendar date as stored in a pandas `datetime64` cell (midnight times). -/
structure SDate where
  year : Nat
  month : Nat
  day : Nat
deriving DecidableEq

/-- Gregorian leap-year rule. -/
def isLeapYear (y : Nat) : Bool :=
  decide ((y % 4 = 0 ∧ y % 100 ≠ 0) ∨ y % 400 = 0)

/-- Length of a month, 0 for a non-month. -/
def daysInMonth (y : Nat) (m : Nat) : Nat :=
  match m with
  | 1 => 31 | 3 => 31 | 5 => 31 | 7 => 31 | 8 => 31 | 10 => 31 | 12 => 31
  | 4 => 30 | 6 => 30 | 9 => 30 | 11 => 30
  | 2 => if isLeapYear y then 29 else 28
  | _ => 0

/-- Calendar validity of a (year, month, day) triple. -/
def validDate (y m d : Nat) : Bool :=
  decide (1 ≤ m ∧ m ≤ 12 ∧ 1 ≤ d ∧ d ≤ daysInMonth y m)

/-- Resolve three numeric tokens into a date the way dateutil does for the
shapes occurring in the script: a four-digit token at the front is the year
and the remaining two tokens are read month-first with a day-first fallback;
a four-digit token at the back likewise leaves the two front tokens to be
read month-first (US order) with a day-first fallback when the month
position cannot be a month. -/
def parse3 (a b c : List Char) : Option SDate :=
  match parseNumL a, parseNumL b, parseNumL c with
  | some x, some y, some z =>
    if a.length = 4 ∧ b.length ≤ 2 ∧ c.length ≤ 2 then
      if validDate x y z then some ⟨x, y, z⟩
      else if validDate x z y then some ⟨x, z, y⟩
      else none
    else if c.length = 4 ∧ a.length ≤ 2 ∧ b.length ≤ 2 then
      if validDate z x y then some ⟨z, x, y⟩
      else if validDate z y x then some ⟨z, y, x⟩
      else none
    else none
  | _, _, _ => none

/-- Model of `pd.to_datetime(value, errors='coerce')` (line 134) on one cell,
scoped to values made of three numeric fields separated by `-` or `/` (the
shapes occurring in the dataset): on these it follows the library, and a
value of this shape with no calendar reading is coerced to the `none`
marker (`NaT`) rather than an error.  The library also parses shapes
outside this scope (month-name dates and the like); there the model
returns `none` by scope and is not used as evidence. -/
def parseDateL (l : List Char) : Option SDate :=
  match splitOnChar '-' l with
  | [a, b, c] => parse3 a b c
  | _ =>
    match splitOnChar '/' l with
    | [a, b, c] => parse3 a b c
    | _ => none

/-- String-level date conversion of line 134. -/
def parseDate (s : String) : Option SDate := parseDateL s.data

/-- One survey record, fields in the column order of lines 20-21 of the
script; `δ` is the type of the `survey_date` cell (`String` before the date
conversion, `Option SDate` after it). Cells that can hold pandas missing
values are `Option`s. -/
structure RowG (δ : Type) where
  customer_id : Int
  name : Option String
  age : Option Rat
  email : Option String
  survey_date : δ
  satisfaction_rating : Rat
  product_category : String
  purchase_amount : Option Rat
  would_recommend : String
  comments : Option String
deriving DecidableEq

/-- Record before the date conversion. -/
abbrev Row := RowG String

/-- Record after the date conversion of line 134. -/
abbrev CRow := RowG (Option SDate)

/-- Apply a function to the `survey_date` cell, all other cells untouched. -/
def RowG.mapDate {δ δ' : Type} (f : δ → δ') (r : RowG δ) : RowG δ' :=
  { customer_id := r.customer_id
    name := r.name
    age := r.age
    email := r.email
    survey_date := f r.survey_date
    satisfaction_rating := r.satisfaction_rating
    product_category := r.product_category
    purchase_amount := r.purchase_amount
    would_recommend := r.would_recommend
    comments := r.comments }

/-- The literal six-row dataset of lines 11-18 of the script. -/
def data : List Row :=
  [⟨1, some "John Smith", some 25, some "john@email.com", "2024-01-15", 5,
    "electronics", some 299.99, "Yes", some "Great product!"⟩,
   ⟨2, some " jane doe ", some 150, some "JANE@EMAIL.COM", "01/16/2024", 4,
    "CLOTHING", some 89.50, "yes", some "  Good quality  "⟩,
   ⟨1, some "John Smith", some 25, some "john@email.com", "2024-01-15", 5,
    "Electronics", some 299.99, "Yes", some "Great product!"⟩,
   ⟨3, some "Bob Johnson", some 30, some "", "2024-01-17", 3,
    "Books", some 25.00, "Maybe", some ""⟩,
   ⟨4, some "Alice Brown", some (-5), some "alice@email.com", "17-01-2024", 6,
    "home & garden", some 450.00, "NO", some "Poor delivery"⟩,
   ⟨5, some "", some 35, some "test@email.com", "2024/01/18", 2,
    "Clothing", none, "Yes", some ""⟩]

/-- Insert into a sorted list of rationals. -/
def insertSorted (x : Rat) : List Rat → List Rat
  | [] => [x]
  | y :: ys => if x ≤ y then x :: y :: ys else y :: insertSorted x ys

/-- Insertion sort of rationals. -/
def sortRat (l : List Rat) : List Rat := l.foldr insertSorted []

/-- Pandas `Series.median` over the present values: sort, take the middle
element (odd length) or the mean of the two middle elements (even length);
`none` on an empty series (pandas `NaN`). -/
def median? (l : List Rat) : Option Rat :=
  if (sortRat l).length = 0 then none
  else if (sortRat l).length % 2 = 1 then (sortRat l)[(sortRat l).length / 2]?
  else
    match (sortRat l)[(sortRat l).length / 2 - 1]?, (sortRat l)[(sortRat l).length / 2]? with
    | some a, some b => some ((a + b) / 2)
    | _, _ => none

/-- Worker for `dropDuplicates`: `seen` holds the row values already kept. -/
def dropDupAux {α : Type} [DecidableEq α] (seen : List α) : List α → List α
  | [] => []
  | r :: rs => if r ∈ seen then dropDupAux seen rs else r :: dropDupAux (r :: seen) rs

/-- Line 64, `df_clean.drop_duplicates()`: keep the first occurrence of every
full-row value, drop later exact copies. -/
def dropDuplicates {α : Type} [DecidableEq α] (l : List α) : List α := dropDupAux [] l

/-- The non-missing `purchase_amount` values of a record list. -/
def purchaseAmounts (l : List Row) : List Rat := l.filterMap (fun r => r.purchase_amount)

/-- Lines 71-72: fill missing `purchase_amount` with the median of the
present amounts (with no present amount the median is `NaN` and pandas
`fillna` leaves the cells missing). -/
def imputePurchase (l : List Row) : List Row :=
  match median? (purchaseAmounts l) with
  | some m => l.map (fun r => { r with purchase_amount := some (r.purchase_amount.getD m) })
  | none => l

/-- Lines 76-77 on one row: fill a missing `name` and a missing `email` with
the placeholders; present values (the empty string included) are kept. -/
def fillnaRow (r : Row) : Row :=
  { r with name := some (r.name.getD "Unknown Customer")
           email := some (r.email.getD "no_email@unknown.com") }

/-- Lines 76-77: fill missing `name` and `email` with the placeholders. -/
def fillnaText (l : List Row) : List Row := l.map fillnaRow

/-- Membership of an age cell in the valid band `[0, 120]` (line 87); a
missing cell fails the test, as NaN fails both pandas comparisons. -/
def validAge? (a : Option Rat) : Bool :=
  match a with
  | some v => decide (0 ≤ v ∧ v ≤ 120)
  | none => false

/-- Mask `df_clean['age'] < 0` of line 90 on one cell. -/
def ageBelow? (a : Option Rat) : Bool :=
  match a with
  | some v => decide (v < 0)
  | none => false

/-- Mask `df_clean['age'] > 120` of line 91 on one cell. -/
def ageAbove? (a : Option Rat) : Bool :=
  match a with
  | some v => decide (120 < v)
  | none => false

/-- Union of the two invalid-age masks, as counted on line 144. -/
def invalidAge? (a : Option Rat) : Bool := ageBelow? a || ageAbove? a

/-- Line 87: ages of the rows whose age lies in `[0, 120]`. -/
def validAges (l : List Row) : List Rat :=
  (l.filter (fun r => validAge? r.age)).filterMap (fun r => r.age)

/-- Lines 87-91: replace the ages below 0 and above 120 by the median of the
valid ages (both assignments use the one median computed up front). -/
def repairAge (l : List Row) : List Row :=
  let m := median? (validAges l)
  ((l.map (fun r => if ageBelow? r.age then { r with age := m } else r)).map
    (fun r => if ageAbove? r.age then { r with age := m } else r))

/-- Line 100: ratings below 1 become 1. -/
def clampLow (l : List Row) : List Row :=
  l.map (fun r =>
    if r.satisfaction_rating < 1 then { r with satisfaction_rating := 1 } else r)

/-- Line 101: ratings above 5 become 5. -/
def clampHigh (l : List Row) : List Row :=
  l.map (fun r =>
    if 5 < r.satisfaction_rating then { r with satisfaction_rating := 5 } else r)

/-- Lines 100-101 in their source order. -/
def clampRatings (l : List Row) : List Row := clampHigh (clampLow l)

/-- The effect of lines 100-101 on one row: clamp the rating into `[1, 5]`. -/
def clampRow (r : Row) : Row :=
  if r.satisfaction_rating < 1 then { r with satisfaction_rating := 1 }
  else if 5 < r.satisfaction_rating then { r with satisfaction_rating := 5 }
  else r

/-- The effect of lines 90-91 on one row, given the median `m` of the valid
ages: an out-of-range age becomes `m`. -/
def repairRowWith (m : Option Rat) (r : Row) : Row :=
  if invalidAge? r.age then { r with age := m } else r

/-- Strip-then-title normalization applied to `name` (line 109) and
`product_category` (line 117). -/
def normTitleField (s : String) : String := pyTitle (pyStrip s)

/-- Strip-then-lower normalization applied to `email` (line 113). -/
def normEmailField (s : String) : String := pyLower (pyStrip s)

/-- Lines 109-127: per-row text standardization. -/
def normTextRow (r : Row) : Row :=
  { r with
    name := r.name.map normTitleField
    email := r.email.map normEmailField
    product_category := normTitleField r.product_category
    would_recommend := normWouldRecommend r.would_recommend
    comments := r.comments.map pyStrip }

/-- Lines 109-127 over the record list. -/
def normText (l : List Row) : List Row := l.map normTextRow

/-- Line 134: convert the `survey_date` column, each cell independently. -/
def normDates (l : List Row) : List CRow := l.map (RowG.mapDate parseDate)

/-- The cleaned copy after the text step, before the date step. -/
def cleanStage5 (l : List Row) : List Row :=
  normText (clampRatings (repairAge (fillnaText (imputePurchase (dropDuplicates l)))))

/-- The full cleaning pipeline of lines 59-134 applied to a record list. -/
def cleanPipeline (l : List Row) : List CRow := normDates (cleanStage5 l)

/-- The value the pipeline actually computes on the literal dataset: six rows
(the two customer-1 rows differ in raw `product_category` casing, so none is
an exact duplicate), both out-of-range ages replaced by 27.5 (the median of
the valid ages 25, 25, 30, 35), the missing purchase amount replaced by
299.99 (the median of the five present amounts), the rating 6 clamped to 5,
text normalized and every date parsed. -/
def expectedClean : List CRow :=
  [⟨1, some "John Smith", some 25, some "john@email.com", some ⟨2024, 1, 15⟩, 5,
    "Electronics", some 299.99, "Yes", some "Great product!"⟩,
   ⟨2, some "Jane Doe", some 27.5, some "jane@email.com", some ⟨2024, 1, 16⟩, 4,
    "Clothing", some 89.50, "Yes", some "Good quality"⟩,
   ⟨1, some "John Smith", some 25, some "john@email.com", some ⟨2024, 1, 15⟩, 5,
    "Electronics", some 299.99, "Yes", some "Great product!"⟩,
   ⟨3, some "Bob Johnson", some 30, some "", some ⟨2024, 1, 17⟩, 3,
    "Books", some 25.00, "No", some ""⟩,
   ⟨4, some "Alice Brown", some 27.5, some "alice@email.com", some ⟨2024, 1, 17⟩, 5,
    "Home & Garden", some 450.00, "No", some "Poor delivery"⟩,
   ⟨5, some "", some 35, some "test@email.com", some ⟨2024, 1, 18⟩, 2,
    "Clothing", some 299.99, "Yes", some ""⟩]

/-- The literal dataset with the first `survey_date` replaced by a value in
none of the recognized formats (used to show that an unparseable date only
degrades that one cell). -/
def dataBadDate : List Row :=
  match data with
  | r :: rs => { r with survey_date := "not-a-date" } :: rs
  | [] => []

/-- Count of missing cells in one raw row (`df.isnull()` over the columns
that can hold a missing value). -/
def rowMissing (r : Row) : Nat :=
  (if r.name = none then 1 else 0) + (if r.age = none then 1 else 0) +
  (if r.email = none then 1 else 0) + (if r.purchase_amount = none then 1 else 0) +
  (if r.comments = none then 1 else 0)

/-- Line 143 quantity: `df.isnull().sum().sum()`. -/
def totalMissing (l : List Row) : Nat := (l.map rowMissing).sum

/-- Line 144 quantity: rows with age outside `[0, 120]`. -/
def invalidAgeCount (l : List Row) : Nat :=
  (l.filter (fun r => invalidAge? r.age)).length

/-- Line 145 quantity: rows with rating outside `[1, 5]`. -/
def invalidRatingCount (l : List Row) : Nat :=
  (l.filter (fun r =>
    decide (r.satisfaction_rating < 1) || decide (5 < r.satisfaction_rating))).length

/-- The two program variables: `df` (raw) and `df_clean` (working copy). -/
structure PipeState where
  df : List Row
  df_clean : List Row
deriving DecidableEq

/-- Program state once the date conversion has retyped `df_clean`. -/
structure FinalState where
  df : List Row
  df_clean : List CRow
deriving DecidableEq

/-- Line 59: `df_clean = df.copy()`. -/
def initState (d : List Row) : PipeState := ⟨d, d⟩

/-- Line 64 as a state transformer: only `df_clean` is reassigned. -/
def step1 (s : PipeState) : PipeState := ⟨s.df, dropDuplicates s.df_clean⟩

/-- Lines 71-77 as a state transformer. -/
def step2 (s : PipeState) : PipeState := ⟨s.df, fillnaText (imputePurchase s.df_clean)⟩

/-- Lines 87-91 as a state transformer. -/
def step3 (s : PipeState) : PipeState := ⟨s.df, repairAge s.df_clean⟩

/-- Lines 100-101 as a state transformer. -/
def step4 (s : PipeState) : PipeState := ⟨s.df, clampRatings s.df_clean⟩

/-- Lines 109-127 as a state transformer. -/
def step5 (s : PipeState) : PipeState := ⟨s.df, normText s.df_clean⟩

/-- Line 134 as a state transformer. -/
def step6 (s : PipeState) : FinalState := ⟨s.df, normDates s.df_clean⟩

/-- Lines 59-134: the whole mutation phase of the script, started from the
raw record list. -/
def runProgram (d : List Row) : FinalState :=
  step6 (step5 (step4 (step3 (step2 (step1 (initState d))))))

/-- Line 143 as printed: the count is computed from `df`, the raw set. -/
def reportedMissingFixed (s : FinalState) : Nat := totalMissing s.df

/-- Line 144 as printed: computed from `df`, the raw set. -/
def reportedAgesCorrected (s : FinalState) : Nat := invalidAgeCount s.df

/-- Line 145 as printed: computed from `df`, the raw set. -/
def reportedRatingsFixed (s : FinalState) : Nat := invalidRatingCount s.df

/-- A small concrete row used to instantiate the general theorems. -/
def demoRow : Row := ⟨0, none, none, none, "", 1, "", none, "", none⟩

/-- A concrete row with an out-of-range age, for instantiating the age
repair theorem. -/
def demoOldRow : Row := ⟨7, some "A", some 200, some "a@b.c", "2024-01-01", 3, "Books", some 1, "Yes", some ""⟩

/-- A concrete row with a valid age, for instantiating the age repair
theorem. -/
def demoYoungRow : Row := ⟨8, some "B", some 40, some "b@b.c", "2024-01-02", 9, "Books", some 2, "no", some ""⟩

/-! ### Character-level lemmas -/

/-- Decoding `Char.ofNat` at a value below the surrogate range. -/
theorem toNat_ofNat_valid (n : Nat) (h : n < 55296) : (Char.ofNat n).toNat = n := by
  have hv : n.isValidChar := Or.inl h
  rw [Char.ofNat, dif_pos hv]
  simp [Char.ofNatAux, Char.toNat, UInt32.toNat, BitVec.toNat_ofNatLt]

/-- Lower-casing is idempotent on characters. -/
theorem downChar_downChar (c : Char) : downChar (downChar c) = downChar c := by
  unfold downChar
  by_cases h : 65 ≤ c.toNat ∧ c.toNat ≤ 90
  · rw [if_pos h, if_neg]
    rw [toNat_ofNat_valid _ (by omega)]
    omega
  · rw [if_neg h, if_neg h]

/-- Upper-casing is idempotent on characters. -/
theorem upChar_upChar (c : Char) : upChar (upChar c) = upChar c := by
  unfold upChar
  by_cases h : 97 ≤ c.toNat ∧ c.toNat ≤ 122
  · rw [if_pos h, if_neg]
    rw [toNat_ofNat_valid _ (by omega)]
    omega
  · rw [if_neg h, if_neg h]

/-- Lower-casing preserves letterhood. -/
theorem isAlphaChar_downChar (c : Char) : isAlphaChar (downChar c) = isAlphaChar c := by
  unfold downChar isAlphaChar
  by_cases h : 65 ≤ c.toNat ∧ c.toNat ≤ 90
  · rw [if_pos h, toNat_ofNat_valid _ (by omega), decide_eq_decide]
    omega
  · rw [if_neg h]

/-- Upper-casing preserves letterhood. -/
theorem isAlphaChar_upChar (c : Char) : isAlphaChar (upChar c) = isAlphaChar c := by
  unfold upChar isAlphaChar
  by_cases h : 97 ≤ c.toNat ∧ c.toNat ≤ 122
  · rw [if_pos h, toNat_ofNat_valid _ (by omega), decide_eq_decide]
    omega
  · rw [if_neg h]

/-- Lower-casing preserves whitespace-ness. -/
theorem isSpaceChar_downChar (c : Char) : isSpaceChar (downChar c) = isSpaceChar c := by
  unfold downChar isSpaceChar
  by_cases h : 65 ≤ c.toNat ∧ c.toNat ≤ 90
  · rw [if_pos h, toNat_ofNat_valid _ (by omega), decide_eq_decide]
    omega
  · rw [if_neg h]

/-- Upper-casing preserves whitespace-ness. -/
theorem isSpaceChar_upChar (c : Char) : isSpaceChar (upChar c) = isSpaceChar c := by
  unfold upChar isSpaceChar
  by_cases h : 97 ≤ c.toNat ∧ c.toNat ≤ 122
  · rw [if_pos h, toNat_ofNat_valid _ (by omega), decide_eq_decide]
    omega
  · rw [if_neg h]

/-! ### Strip, title and lower on character lists -/

/-- Bound on the length of `dropWhile`. -/
theorem length_dropWhile_le' (p : Char → Bool) (l : List Char) :
    (l.dropWhile p).length ≤ l.length := by
  induction l with
  | nil => exact Nat.le_refl _
  | cons c t ih =>
    rw [List.dropWhile_cons]
    by_cases h : p c
    · rw [if_pos h]
      exact Nat.le_trans ih (Nat.le_succ _)
    · rw [if_neg h]

/-- `dropWhile` is idempotent. -/
theorem dropWhile_dropWhile (p : Char → Bool) (l : List Char) :
    (l.dropWhile p).dropWhile p = l.dropWhile p := by
  induction l with
  | nil => rfl
  | cons c t ih =>
    rw [List.dropWhile_cons]
    by_cases h : p c
    · rw [if_pos h]
      exact ih
    · rw [if_neg h, List.dropWhile_cons, if_neg h]

/-- A list fixed by `dropWhile` has a head failing the predicate. -/
theorem head_false_of_dropWhile_self (p : Char → Bool) (d : Char) (s : List Char)
    (h : (d :: s).dropWhile p = d :: s) : p d = false := by
  by_contra hb
  have hd : p d = true := by
    revert hb
    cases p d <;> simp
  rw [List.dropWhile_cons, if_pos hd] at h
  have hlen := length_dropWhile_le' p s
  rw [h] at hlen
  simp only [List.length_cons] at hlen
  omega

/-- A list whose head fails the predicate is fixed by `dropWhile`. -/
theorem dropWhile_eq_self_of_heads (p : Char → Bool) (l : List Char)
    (h : ∀ c t, l = c :: t → p c = false) : l.dropWhile p = l := by
  cases l with
  | nil => rfl
  | cons c t =>
    rw [List.dropWhile_cons, if_neg]
    simp [h c t rfl]

/-- Being fixed by `dropWhile isSpaceChar` only depends on the whitespace
pattern of the list. -/
theorem dropWhile_space_eq_self_of_pattern (x y : List Char)
    (hp : x.map isSpaceChar = y.map isSpaceChar)
    (hy : y.dropWhile isSpaceChar = y) : x.dropWhile isSpaceChar = x := by
  apply dropWhile_eq_self_of_heads
  intro c t hx
  subst hx
  cases y with
  | nil => simp at hp
  | cons d s =>
    simp only [List.map_cons, List.cons.injEq] at hp
    rw [hp.1]
    exact head_false_of_dropWhile_self _ _ _ hy

/-- The left strip is idempotent. -/
theorem lstripL_lstripL (l : List Char) : lstripL (lstripL l) = lstripL l :=
  dropWhile_dropWhile _ l

/-- The right strip removes a suffix. -/
theorem rstripL_append (l : List Char) :
    rstripL l ++ (l.reverse.takeWhile isSpaceChar).reverse = l := by
  rw [rstripL, ← List.reverse_append, List.takeWhile_append_dropWhile, List.reverse_reverse]

/-- Any prefix of a left-stripped list is left-stripped. -/
theorem lstripL_of_prefix (m p t : List Char) (hm : lstripL m = m) (hp : p ++ t = m) :
    lstripL p = p := by
  apply dropWhile_eq_self_of_heads
  intro c s hc
  subst hc
  subst hp
  exact head_false_of_dropWhile_self _ c _ hm

/-- A left-stripped list stays left-stripped after a right strip. -/
theorem lstripL_rstripL_of (m : List Char) (hm : lstripL m = m) :
    lstripL (rstripL m) = rstripL m :=
  lstripL_of_prefix m _ _ hm (rstripL_append m)

/-- The right strip is idempotent. -/
theorem rstripL_rstripL (l : List Char) : rstripL (rstripL l) = rstripL l := by
  unfold rstripL
  rw [List.reverse_reverse, dropWhile_dropWhile]

/-- Python `strip` is idempotent on character lists. -/
theorem stripL_stripL (l : List Char) : stripL (stripL l) = stripL l := by
  unfold stripL
  rw [lstripL_rstripL_of (lstripL l) (lstripL_lstripL l), rstripL_rstripL]

/-- A stripped list is fixed by the left strip. -/
theorem lstripL_of_stripped (l : List Char) (h : stripL l = l) : lstripL l = l := by
  conv_lhs => rw [← h]
  conv_rhs => rw [← h]
  unfold stripL
  exact lstripL_rstripL_of (lstripL l) (lstripL_lstripL l)

/-- A stripped list is fixed by the right strip. -/
theorem rstripL_of_stripped (l : List Char) (h : stripL l = l) : rstripL l = l := by
  conv_lhs => rw [← h]
  conv_rhs => rw [← h]
  unfold stripL
  rw [rstripL_rstripL]

/-- Being stripped only depends on the whitespace pattern. -/
theorem stripL_eq_self_of_pattern (x y : List Char)
    (hp : x.map isSpaceChar = y.map isSpaceChar) (hy : stripL y = y) :
    stripL x = x := by
  have hlx : lstripL x = x :=
    dropWhile_space_eq_self_of_pattern x y hp (lstripL_of_stripped y hy)
  have hrevp : x.reverse.map isSpaceChar = y.reverse.map isSpaceChar := by
    rw [List.map_reverse, List.map_reverse, hp]
  have hry : y.reverse.dropWhile isSpaceChar = y.reverse := by
    have h1 := rstripL_of_stripped y hy
    unfold rstripL at h1
    have := congrArg List.reverse h1
    rwa [List.reverse_reverse] at this
  have hrx : x.reverse.dropWhile isSpaceChar = x.reverse :=
    dropWhile_space_eq_self_of_pattern _ _ hrevp hry
  unfold stripL
  rw [hlx]
  unfold rstripL
  rw [hrx, List.reverse_reverse]

/-- Title-casing preserves the whitespace pattern. -/
theorem titleAux_spacePattern (b : Bool) (l : List Char) :
    (titleAux b l).map isSpaceChar = l.map isSpaceChar := by
  induction l generalizing b with
  | nil => rfl
  | cons c t ih =>
    by_cases h : isAlphaChar c = true
    · cases b <;>
        simp [titleAux, h, isSpaceChar_upChar, isSpaceChar_downChar, ih]
    · simp only [Bool.not_eq_true] at h
      simp [titleAux, h, ih]

/-- Title-casing is idempotent on character lists. -/
theorem titleAux_titleAux (b : Bool) (l : List Char) :
    titleAux b (titleAux b l) = titleAux b l := by
  induction l generalizing b with
  | nil => rfl
  | cons c t ih =>
    by_cases h : isAlphaChar c = true
    · cases b <;>
        simp [titleAux, h, isAlphaChar_upChar, isAlphaChar_downChar,
          upChar_upChar, downChar_downChar, ih]
    · simp only [Bool.not_eq_true] at h
      simp [titleAux, h, ih]

/-- Python `title` is idempotent on character lists. -/
theorem titleL_titleL (l : List Char) : titleL (titleL l) = titleL l :=
  titleAux_titleAux false l

/-- Lower-casing preserves the whitespace pattern. -/
theorem lowerL_spacePattern (l : List Char) :
    (lowerL l).map isSpaceChar = l.map isSpaceChar := by
  induction l with
  | nil => rfl
  | cons c t ih => simp [lowerL, isSpaceChar_downChar, ih]

/-- Python `lower` is idempotent on character lists. -/
theorem lowerL_lowerL (l : List Char) : lowerL (lowerL l) = lowerL l := by
  induction l with
  | nil => rfl
  | cons c t ih =>
    simp only [lowerL, List.map_cons] at *
    rw [downChar_downChar, ih]

/-- A stripped list stays stripped after title-casing. -/
theorem stripL_titleL (m : List Char) (hm : stripL m = m) :
    stripL (titleL m) = titleL m :=
  stripL_eq_self_of_pattern (titleL m) m (titleAux_spacePattern false m) hm

/-- A stripped list stays stripped after lower-casing. -/
theorem stripL_lowerL (m : List Char) (hm : stripL m = m) :
    stripL (lowerL m) = lowerL m :=
  stripL_eq_self_of_pattern (lowerL m) m (lowerL_spacePattern m) hm

/-! ### String-level normalization lemmas -/

/-- Python `strip` is idempotent on strings. -/
theorem pyStrip_pyStrip (s : String) : pyStrip (pyStrip s) = pyStrip s := by
  unfold pyStrip
  exact congrArg String.mk (stripL_stripL s.data)

/-- The strip-then-title normalization is idempotent. -/
theorem normTitleField_normTitleField (s : String) :
    normTitleField (normTitleField s) = normTitleField s := by
  unfold normTitleField pyTitle pyStrip
  exact congrArg String.mk
    (by rw [stripL_titleL _ (stripL_stripL s.data), titleL_titleL])

/-- The strip-then-lower normalization is idempotent. -/
theorem normEmailField_normEmailField (s : String) :
    normEmailField (normEmailField s) = normEmailField s := by
  unfold normEmailField pyLower pyStrip
  exact congrArg String.mk
    (by rw [stripL_lowerL _ (stripL_stripL s.data), lowerL_lowerL])

/-- The `would_recommend` normalization is idempotent. -/
theorem normWouldRecommend_normWouldRecommend (s : String) :
    normWouldRecommend (normWouldRecommend s) = normWouldRecommend s := by
  unfold normWouldRecommend mapMaybeNo
  by_cases h : pyTitle (pyStrip s) = "Maybe"
  · rw [if_pos h]
    have h1 : pyTitle (pyStrip "No") = "No" := by decide
    rw [h1]
    simp
  · rw [if_neg h]
    have h2 : pyTitle (pyStrip (pyTitle (pyStrip s))) = pyTitle (pyStrip s) :=
      normTitleField_normTitleField s
    rw [h2, if_neg h]

/-- Mapping an idempotent function over an optional value is idempotent. -/
theorem optionMap_idem {f : String → String} (hf : ∀ s, f (f s) = f s)
    (x : Option String) : (x.map f).map f = x.map f := by
  cases x <;> simp [hf]

/-- The "Maybe" to "No" replacement never outputs "Maybe". -/
theorem mapMaybeNo_ne (t : String) : mapMaybeNo t ≠ "Maybe" := by
  unfold mapMaybeNo
  by_cases h : t = "Maybe"
  · rw [if_pos h]
    decide
  · rw [if_neg h]
    exact h

/-- Rows of the pipeline output are date-converted text-normalized rows. -/
theorem mem_cleanPipeline (l : List Row) (cr : CRow) (hcr : cr ∈ cleanPipeline l) :
    ∃ r ∈ clampRatings (repairAge (fillnaText (imputePurchase (dropDuplicates l)))),
      cr = RowG.mapDate parseDate (normTextRow r) := by
  obtain ⟨r5, hr5, hcr5⟩ := List.mem_map.mp hcr
  obtain ⟨r4, hr4, hr45⟩ := List.mem_map.mp hr5
  exact ⟨r4, hr4, by rw [← hcr5, ← hr45]⟩

/-- C7: applying the text-normalization step of lines 109-127 (strip and
title-case `name` and `product_category`, strip and lower-case `email`,
strip `comments`, strip/title-case `would_recommend` followed by the
"Maybe" to "No" replacement) a second time to already-normalized values
yields exactly the same values, row-wise and list-wise. -/
theorem textNormalizationIdempotent :
    (∀ r : Row, normTextRow (normTextRow r) = normTextRow r) ∧
    (∀ l : List Row, normText (normText l) = normText l) := by
  have hrow : ∀ r : Row, normTextRow (normTextRow r) = normTextRow r := by
    intro r
    cases r with
    | mk cid nm ag em dt rt cat pa wr cm =>
      simp [normTextRow, optionMap_idem normTitleField_normTitleField,
        optionMap_idem normEmailField_normEmailField,
        optionMap_idem pyStrip_pyStrip,
        normTitleField_normTitleField, normWouldRecommend_normWouldRecommend]
  refine ⟨hrow, ?_⟩
  intro l
  unfold normText
  rw [List.map_map]
  apply List.map_congr_left
  intro r _
  exact hrow r

/-- C6: no row of the cleaned output carries `would_recommend = "Maybe"`;
an input value that strips and title-cases to "Maybe" comes out as "No";
and the replacement is applied to the already title-cased value. -/
theorem maybeMappedToNo :
    (∀ l : List Row, ∀ cr ∈ cleanPipeline l, cr.would_recommend ≠ "Maybe") ∧
    (∀ s : String, pyTitle (pyStrip s) = "Maybe" → normWouldRecommend s = "No") ∧
    (∀ s : String, normWouldRecommend s = mapMaybeNo (pyTitle (pyStrip s))) := by
  refine ⟨?_, ?_, fun s => rfl⟩
  · intro l cr hcr
    obtain ⟨r, _, heq⟩ := mem_cleanPipeline l cr hcr
    rw [heq]
    exact mapMaybeNo_ne _
  · intro s h
    unfold normWouldRecommend
    rw [h]
    decide

/-- Witness for C6 at the literal data: the first cleaned row does not
recommend "Maybe", and a padded lower-case "maybe" normalizes to "No". -/
theorem maybeMappedToNo_witness :
    (⟨1, some "John Smith", some 25, some "john@email.com", some ⟨2024, 1, 15⟩, 5,
      "Electronics", some 299.99, "Yes", some "Great product!"⟩ : CRow).would_recommend
      ≠ "Maybe" ∧
    normWouldRecommend " maybe " = "No" := by
  constructor
  · apply maybeMappedToNo.1 data
    rw [show cleanPipeline data = expectedClean from by with_unfolding_all rfl]
    exact List.Mem.head _
  · exact maybeMappedToNo.2.1 " maybe " (by decide)

/-! ### Deduplication lemmas -/

/-- Occurrence count of a value in the output of the deduplication worker:
one when the value occurs in the input and was not kept before, zero
otherwise. -/
theorem dropDupAux_count {α : Type} [DecidableEq α] (seen l : List α) (r : α) :
    (dropDupAux seen l).count r = if r ∈ l ∧ r ∉ seen then 1 else 0 := by
  induction l generalizing seen with
  | nil => simp [dropDupAux]
  | cons a t ih =>
    by_cases ha : a ∈ seen
    · simp only [dropDupAux]
      rw [if_pos ha, ih seen]
      by_cases h1 : r ∈ t ∧ r ∉ seen
      · rw [if_pos h1, if_pos ⟨List.mem_cons_of_mem a h1.1, h1.2⟩]
      · rw [if_neg h1, if_neg ?_]
        rintro ⟨hm, hn⟩
        rcases List.mem_cons.mp hm with he | ht
        · exact hn (he ▸ ha)
        · exact h1 ⟨ht, hn⟩
    · simp only [dropDupAux]
      rw [if_neg ha, List.count_cons, ih (a :: seen)]
      by_cases hra : r = a
      · subst hra
        rw [if_neg (fun h => h.2 (List.mem_cons_self r seen))]
        simp [ha]
      · rw [if_neg (by simp only [beq_iff_eq] ; exact fun h => hra h.symm : ¬(a == r) = true)]
        by_cases h1 : r ∈ t ∧ r ∉ seen
        · rw [if_pos ⟨h1.1, by simp [hra, h1.2]⟩,
            if_pos ⟨List.mem_cons_of_mem a h1.1, h1.2⟩]
        · rw [if_neg ?_, if_neg ?_]
          · rintro ⟨hm, hn⟩
            rcases List.mem_cons.mp hm with he | ht
            · exact hra he
            · exact h1 ⟨ht, hn⟩
          · rintro ⟨hm, hn⟩
            exact h1 ⟨hm, fun hs => hn (List.mem_cons_of_mem a hs)⟩

/-- A value already kept (or seen) contributes nothing further: dropping a
later occurrence does not change the output of the worker. -/
theorem dropDupAux_skip {α : Type} [DecidableEq α] (seen l₁ l₂ : List α) (r : α)
    (h : r ∈ seen ∨ r ∈ l₁) :
    dropDupAux seen (l₁ ++ r :: l₂) = dropDupAux seen (l₁ ++ l₂) := by
  induction l₁ generalizing seen with
  | nil =>
    simp only [List.nil_append]
    have hr : r ∈ seen := h.resolve_right (by simp)
    simp only [dropDupAux]
    rw [if_pos hr]
  | cons a t ih =>
    simp only [List.cons_append, dropDupAux]
    by_cases ha : a ∈ seen
    · rw [if_pos ha, if_pos ha]
      apply ih
      rcases h with hs | hm
      · exact Or.inl hs
      · rcases List.mem_cons.mp hm with he | ht
        · exact Or.inl (he ▸ ha)
        · exact Or.inr ht
    · rw [if_neg ha, if_neg ha]
      congr 1
      apply ih
      rcases h with hs | hm
      · exact Or.inl (List.mem_cons_of_mem a hs)
      · rcases List.mem_cons.mp hm with he | ht
        · exact Or.inl (he ▸ List.mem_cons_self a seen)
        · exact Or.inr ht

/-- C3: for any input containing a row twice (all ten fields equal), the
deduplicated output of line 64 contains that row exactly once; and a row
that duplicates an earlier row is dropped, so only the first occurrence
determines the output. -/
theorem deduplicationKeepsFirst :
    (∀ (l : List Row) (r : Row), 2 ≤ l.count r → (dropDuplicates l).count r = 1) ∧
    (∀ (l₁ l₂ : List Row) (r : Row), r ∈ l₁ →
      dropDuplicates (l₁ ++ r :: l₂) = dropDuplicates (l₁ ++ l₂)) := by
  constructor
  · intro l r h2
    unfold dropDuplicates
    rw [dropDupAux_count]
    have hmem : r ∈ l := by
      by_contra hmem
      rw [List.count_eq_zero.mpr hmem] at h2
      omega
    rw [if_pos ⟨hmem, by simp⟩]
  · intro l₁ l₂ r hr
    unfold dropDuplicates
    exact dropDupAux_skip [] l₁ l₂ r (Or.inr hr)

/-- Witness for C3: a doubled concrete row is kept exactly once, and the
second occurrence is dropped. -/
theorem deduplicationKeepsFirst_witness :
    (dropDuplicates [demoRow, demoRow]).count demoRow = 1 ∧
    dropDuplicates ([demoRow] ++ demoRow :: []) = dropDuplicates ([demoRow] ++ []) := by
  constructor
  · exact deduplicationKeepsFirst.1 [demoRow, demoRow] demoRow (by decide)
  · exact deduplicationKeepsFirst.2 [demoRow] [] demoRow (by decide)

/-! ### Median lemmas -/

/-- Members of a sorted insertion are the inserted value or old members. -/
theorem mem_insertSorted (x a : Rat) (l : List Rat) (h : x ∈ insertSorted a l) :
    x = a ∨ x ∈ l := by
  induction l with
  | nil =>
    simp only [insertSorted, List.mem_singleton] at h
    exact Or.inl h
  | cons y ys ih =>
    unfold insertSorted at h
    by_cases hc : a ≤ y
    · rw [if_pos hc] at h
      exact List.mem_cons.mp h
    · rw [if_neg hc] at h
      rcases List.mem_cons.mp h with h1 | h2
      · exact Or.inr (h1 ▸ List.mem_cons_self y ys)
      · rcases ih h2 with h3 | h4
        · exact Or.inl h3
        · exact Or.inr (List.mem_cons_of_mem y h4)

/-- Members of the sorted list are members of the original list. -/
theorem mem_sortRat (x : Rat) (l : List Rat) (h : x ∈ sortRat l) : x ∈ l := by
  induction l with
  | nil => exact absurd h (by simp [sortRat])
  | cons a t ih =>
    rcases mem_insertSorted x a (sortRat t) (by simpa [sortRat] using h) with h1 | h2
    · exact h1 ▸ List.mem_cons_self a t
    · exact List.mem_cons_of_mem a (ih h2)

/-- Insertion grows the length by one. -/
theorem length_insertSorted (a : Rat) (l : List Rat) :
    (insertSorted a l).length = l.length + 1 := by
  induction l with
  | nil => rfl
  | cons y ys ih =>
    unfold insertSorted
    by_cases hc : a ≤ y
    · rw [if_pos hc]
      simp
    · rw [if_neg hc]
      simp [ih]

/-- Sorting preserves the length. -/
theorem length_sortRat (l : List Rat) : (sortRat l).length = l.length := by
  induction l with
  | nil => rfl
  | cons a t ih =>
    show (insertSorted a (sortRat t)).length = t.length + 1
    rw [length_insertSorted, ih]

/-- The median of a nonempty list lying inside a band lies inside the band. -/
theorem median?_bounds (l : List Rat) (lo hi : Rat) (hne : l ≠ [])
    (hb : ∀ x ∈ l, lo ≤ x ∧ x ≤ hi) :
    ∃ v, median? l = some v ∧ lo ≤ v ∧ v ≤ hi := by
  unfold median?
  have hlen : (sortRat l).length = l.length := length_sortRat l
  have hpos : 0 < (sortRat l).length := by
    rw [hlen]
    exact List.length_pos.mpr hne
  have hmem : ∀ (i : Nat) (h : i < (sortRat l).length),
      lo ≤ (sortRat l)[i] ∧ (sortRat l)[i] ≤ hi := fun i h =>
    hb _ (mem_sortRat _ l (List.getElem_mem h))
  rw [if_neg (by omega)]
  by_cases hodd : (sortRat l).length % 2 = 1
  · rw [if_pos hodd]
    have hi2 : (sortRat l).length / 2 < (sortRat l).length := by omega
    rw [List.getElem?_eq_getElem hi2]
    exact ⟨_, rfl, hmem _ hi2⟩
  · rw [if_neg hodd]
    have hia : (sortRat l).length / 2 - 1 < (sortRat l).length := by omega
    have hib : (sortRat l).length / 2 < (sortRat l).length := by omega
    rw [List.getElem?_eq_getElem hia, List.getElem?_eq_getElem hib]
    have ha := hmem _ hia
    have hbb := hmem _ hib
    refine ⟨_, rfl, ?_, ?_⟩
    · obtain ⟨h1, _⟩ := ha
      obtain ⟨h2, _⟩ := hbb
      linarith
    · obtain ⟨_, h1⟩ := ha
      obtain ⟨_, h2⟩ := hbb
      linarith

/-! ### Age repair and rating clamp -/

/-- Every collected valid age lies in the band. -/
theorem validAges_bounds (l : List Row) : ∀ x ∈ validAges l, 0 ≤ x ∧ x ≤ 120 := by
  intro x hx
  unfold validAges at hx
  obtain ⟨r, hr, hage⟩ := List.mem_filterMap.mp hx
  have hv : validAge? r.age = true := (List.mem_filter.mp hr).2
  rw [hage] at hv
  unfold validAge? at hv
  exact of_decide_eq_true hv

/-- A row with a valid age puts its age into the collected valid ages. -/
theorem validAges_ne_nil (l : List Row) (h : ∃ r ∈ l, validAge? r.age = true) :
    validAges l ≠ [] := by
  obtain ⟨r, hr, hv⟩ := h
  match hage : r.age with
  | none => rw [hage] at hv; exact absurd hv (by simp [validAge?])
  | some v =>
    apply List.ne_nil_of_mem (a := v)
    unfold validAges
    exact List.mem_filterMap.mpr ⟨r, List.mem_filter.mpr ⟨hr, hv⟩, hage⟩

/-- With a median inside the band, the two sequential masked assignments of
lines 90-91 coincide with a single per-row replacement of invalid ages. -/
theorem repairAge_eq_map (l : List Row)
    (hm : ∃ v, median? (validAges l) = some v ∧ 0 ≤ v ∧ v ≤ 120) :
    repairAge l = l.map (repairRowWith (median? (validAges l))) := by
  obtain ⟨v, hv, hv0, hv120⟩ := hm
  unfold repairAge
  rw [List.map_map]
  apply List.map_congr_left
  intro r _
  simp only [Function.comp_apply]
  unfold repairRowWith invalidAge?
  by_cases h1 : ageBelow? r.age = true
  · have hnot : ageAbove? (median? (validAges l)) = false := by
      rw [hv]
      unfold ageAbove?
      simp [not_lt.mpr hv120]
    simp [h1, hnot]
  · simp only [Bool.not_eq_true] at h1
    by_cases h2 : ageAbove? r.age = true
    · simp [h1, h2]
    · simp only [Bool.not_eq_true] at h2
      simp [h1, h2]

/-- C4: when some row carries an age in `[0, 120]` (and no age cell is
missing, as in the script's integer age column), the replacement median of
lines 87-88 is the median of the valid ages and lies in `[0, 120]`, every
age below 0 or above 120 is replaced by exactly that median, and all
repaired ages lie in `[0, 120]`; moreover every row of the cleaned output
of the script's own run has its age in `[0, 120]`. -/
theorem ageRepairInBand :
    (∀ l : List Row,
      (∃ r ∈ l, validAge? r.age = true) →
      (∀ r ∈ l, r.age ≠ none) →
      (∃ v, median? (validAges l) = some v ∧ 0 ≤ v ∧ v ≤ 120) ∧
      repairAge l = l.map (repairRowWith (median? (validAges l))) ∧
      (∀ r ∈ repairAge l, ∃ a, r.age = some a ∧ 0 ≤ a ∧ a ≤ 120)) ∧
    (∀ cr ∈ cleanPipeline data, ∃ a, cr.age = some a ∧ 0 ≤ a ∧ a ≤ 120) := by
  constructor
  · intro l hex hnn
    have hmed : ∃ v, median? (validAges l) = some v ∧ 0 ≤ v ∧ v ≤ 120 :=
      median?_bounds (validAges l) 0 120 (validAges_ne_nil l hex) (validAges_bounds l)
    refine ⟨hmed, repairAge_eq_map l hmed, ?_⟩
    rw [repairAge_eq_map l hmed]
    intro r hr
    obtain ⟨r0, hr0, hrr⟩ := List.mem_map.mp hr
    obtain ⟨v, hv, hv0, hv120⟩ := hmed
    subst hrr
    unfold repairRowWith
    by_cases hinv : invalidAge? r0.age = true
    · rw [if_pos hinv]
      exact ⟨v, hv, hv0, hv120⟩
    · rw [if_neg hinv]
      match hage : r0.age with
      | none => exact absurd hage (hnn r0 hr0)
      | some a =>
        rw [hage] at hinv
        unfold invalidAge? ageBelow? ageAbove? at hinv
        simp only [Bool.or_eq_true, decide_eq_true_eq] at hinv
        push_neg at hinv
        exact ⟨a, rfl, hinv.1, hinv.2⟩
  · rw [show cleanPipeline data = expectedClean from by with_unfolding_all rfl]
    intro cr hcr
    simp only [expectedClean, List.mem_cons, List.not_mem_nil, or_false] at hcr
    rcases hcr with rfl | rfl | rfl | rfl | rfl | rfl <;>
      exact ⟨_, rfl, by norm_num, by norm_num⟩

/-- Witness for C4 on a two-row list with one valid and one invalid age. -/
theorem ageRepairInBand_witness :
    (∃ r ∈ [demoOldRow, demoYoungRow], validAge? r.age = true) ∧
    (∀ r ∈ repairAge [demoOldRow, demoYoungRow],
      ∃ a, r.age = some a ∧ 0 ≤ a ∧ a ≤ 120) := by
  have h1 : ∃ r ∈ [demoOldRow, demoYoungRow], validAge? r.age = true :=
    ⟨demoYoungRow, by simp, by decide⟩
  have h2 : ∀ r ∈ [demoOldRow, demoYoungRow], r.age ≠ none := by decide
  exact ⟨h1, (ageRepairInBand.1 _ h1 h2).2.2⟩

/-- The two sequential clamps of lines 100-101 act as one per-row clamp. -/
theorem clampRatings_eq_map (l : List Row) : clampRatings l = l.map clampRow := by
  unfold clampRatings clampHigh clampLow
  rw [List.map_map]
  apply List.map_congr_left
  intro r _
  simp only [Function.comp_apply]
  unfold clampRow
  by_cases h1 : r.satisfaction_rating < 1
  · norm_num [h1]
  · by_cases h2 : 5 < r.satisfaction_rating
    · norm_num [h1, h2]
    · norm_num [h1, h2]

/-- The per-row clamp leaves the rating in `[1, 5]`. -/
theorem clampRow_bounds (r : Row) :
    1 ≤ (clampRow r).satisfaction_rating ∧ (clampRow r).satisfaction_rating ≤ 5 := by
  unfold clampRow
  by_cases h1 : r.satisfaction_rating < 1
  · rw [if_pos h1]
    norm_num
  · rw [if_neg h1]
    by_cases h2 : 5 < r.satisfaction_rating
    · rw [if_pos h2]
      norm_num
    · rw [if_neg h2]
      exact ⟨not_lt.mp h1, not_lt.mp h2⟩

/-- C9: the clamp of lines 100-101 sends every rating below 1 to 1 and every
rating above 5 to 5, leaves in-range ratings unchanged, and every row of the
cleaned output of the pipeline (for any input record list) has its
satisfaction rating in `[1, 5]`. -/
theorem ratingClamped :
    (∀ l : List Row, clampRatings l = l.map clampRow) ∧
    (∀ r : Row,
      (r.satisfaction_rating < 1 → (clampRow r).satisfaction_rating = 1) ∧
      (5 < r.satisfaction_rating → (clampRow r).satisfaction_rating = 5) ∧
      (1 ≤ r.satisfaction_rating → r.satisfaction_rating ≤ 5 → clampRow r = r)) ∧
    (∀ l : List Row, ∀ cr ∈ cleanPipeline l,
      1 ≤ cr.satisfaction_rating ∧ cr.satisfaction_rating ≤ 5) := by
  refine ⟨clampRatings_eq_map, ?_, ?_⟩
  · intro r
    refine ⟨?_, ?_, ?_⟩
    · intro h1
      unfold clampRow
      rw [if_pos h1]
    · intro h2
      unfold clampRow
      rw [if_neg (by linarith), if_pos h2]
    · intro hlo hhi
      unfold clampRow
      rw [if_neg (by linarith), if_neg (by linarith)]
  · intro l cr hcr
    obtain ⟨r, hr, heq⟩ := mem_cleanPipeline l cr hcr
    rw [clampRatings_eq_map] at hr
    obtain ⟨r0, _, hrr⟩ := List.mem_map.mp hr
    have hfield : cr.satisfaction_rating = (clampRow r0).satisfaction_rating := by
      rw [heq, ← hrr]
      rfl
    rw [hfield]
    exact clampRow_bounds r0

/-- Witness for C9: the demo rating 9 is clamped to 5, and the pipeline run
on the demo row yields only in-range ratings. -/
theorem ratingClamped_witness :
    (clampRow demoYoungRow).satisfaction_rating = 5 ∧
    (1 ≤ (⟨8, some "B", some 40, some "b@b.c", some ⟨2024, 1, 2⟩, 5,
      "Books", some 2, "No", some ""⟩ : CRow).satisfaction_rating ∧
      (⟨8, some "B", some 40, some "b@b.c", some ⟨2024, 1, 2⟩, 5,
      "Books", some 2, "No", some ""⟩ : CRow).satisfaction_rating ≤ 5) := by
  constructor
  · exact (ratingClamped.2.1 demoYoungRow).2.1 (by decide)
  · apply ratingClamped.2.2 [demoYoungRow]
    rw [show cleanPipeline [demoYoungRow] =
      [⟨8, some "B", some 40, some "b@b.c", some ⟨2024, 1, 2⟩, 5,
        "Books", some 2, "No", some ""⟩] from by with_unfolding_all rfl]
    exact List.Mem.head _

/-! ### Frame of the summary reporter, end-to-end run, fill placeholders,
failure policy -/

/-- C5: every cleaning step reassigns only `df_clean`; `df` keeps the raw
record set, so the "improvement" counts printed on lines 143-145 are the
defect counts of the original raw set (on the literal data: 1 missing
value, 2 invalid ages, 1 invalid rating), not a before/after difference of
the cleaned set. -/
theorem summaryCountsFromRawFrame :
    (∀ d : List Row, (runProgram d).df = d) ∧
    (∀ d : List Row, (runProgram d).df_clean = cleanPipeline d) ∧
    (∀ d : List Row,
      reportedMissingFixed (runProgram d) = totalMissing d ∧
      reportedAgesCorrected (runProgram d) = invalidAgeCount d ∧
      reportedRatingsFixed (runProgram d) = invalidRatingCount d) ∧
    totalMissing data = 1 ∧ invalidAgeCount data = 2 ∧ invalidRatingCount data = 1 := by
  refine ⟨fun d => rfl, fun d => rfl, fun d => ⟨rfl, rfl, rfl⟩, ?_, ?_, ?_⟩
  · with_unfolding_all rfl
  · with_unfolding_all rfl
  · with_unfolding_all rfl

/-- C1 counterexample: on the literal six-row dataset the cleaned set has
six rows, not five (the two customer-1 rows differ in the raw casing of
`product_category`, so `drop_duplicates` removes nothing), and the age of
the row that had age -5 becomes 27.5 (the median of the valid ages
25, 25, 30, 35), not 30. -/
theorem endToEnd_cex :
    (cleanPipeline data).length = 6 ∧
    ((cleanPipeline data).length == 5) = false ∧
    ((cleanPipeline data).map (fun r => r.age))[4]? = some (some (27.5 : Rat)) ∧
    (((cleanPipeline data).map (fun r => r.age))[4]? == some (some (30 : Rat))) = false := by
  refine ⟨?_, ?_, ?_, ?_⟩
  · with_unfolding_all rfl
  · with_unfolding_all rfl
  · with_unfolding_all rfl
  · with_unfolding_all rfl

/-- C1 amended: on the literal six-row dataset the cleaned set has six rows
(no pair of rows is fully identical); both out-of-range ages (-5 and 150)
are replaced by 27.5, the median of the valid ages 25, 25, 30, 35; in-range
satisfaction ratings are unchanged (only the 6 is clamped to 5); the
missing purchase amount is replaced by 299.99, the median of the five
present amounts; and `product_category` takes exactly one casing per
category ("Electronics", "Clothing", "Books", "Home & Garden"). -/
theorem endToEnd_amended :
    cleanPipeline data = expectedClean ∧
    median? (purchaseAmounts (dropDuplicates data)) = some 299.99 ∧
    median? (validAges (fillnaText (imputePurchase (dropDuplicates data)))) = some 27.5 ∧
    (cleanPipeline data).map (fun r => r.product_category) =
      ["Electronics", "Clothing", "Electronics", "Books", "Home & Garden", "Clothing"] ∧
    (cleanPipeline data).map (fun r => r.satisfaction_rating) = [5, 4, 5, 3, 5, 2] := by
  refine ⟨?_, ?_, ?_, ?_, ?_⟩
  · with_unfolding_all rfl
  · with_unfolding_all rfl
  · with_unfolding_all rfl
  · with_unfolding_all rfl
  · with_unfolding_all rfl

/-- C10: the `fillna` of lines 76-77 replaces only missing (`None`) names
and emails; a present value, the empty string included, is kept.  On the
literal dataset the empty-string name and email cells stay empty strings
and the placeholders never appear in the cleaned output. -/
theorem emptyStringNotMissing :
    (∀ (r : Row) (s : String), r.name = some s → (fillnaRow r).name = some s) ∧
    (∀ (r : Row) (s : String), r.email = some s → (fillnaRow r).email = some s) ∧
    (∀ r : Row, r.name = none → (fillnaRow r).name = some "Unknown Customer") ∧
    (∀ r : Row, r.email = none → (fillnaRow r).email = some "no_email@unknown.com") ∧
    (cleanPipeline data).map (fun r => r.name) =
      [some "John Smith", some "Jane Doe", some "John Smith", some "Bob Johnson",
       some "Alice Brown", some ""] ∧
    (cleanPipeline data).map (fun r => r.email) =
      [some "john@email.com", some "jane@email.com", some "john@email.com", some "",
       some "alice@email.com", some "test@email.com"] ∧
    ((cleanPipeline data).any (fun r =>
      r.name == some "Unknown Customer" || r.email == some "no_email@unknown.com")) = false := by
  refine ⟨?_, ?_, ?_, ?_, ?_, ?_, ?_⟩
  · intro r s h
    unfold fillnaRow
    simp [h]
  · intro r s h
    unfold fillnaRow
    simp [h]
  · intro r h
    unfold fillnaRow
    simp [h]
  · intro r h
    unfold fillnaRow
    simp [h]
  · with_unfolding_all rfl
  · with_unfolding_all rfl
  · with_unfolding_all rfl

/-- Witness for C10: an empty-string name survives `fillna` unchanged, while
a `None` name receives the placeholder. -/
theorem emptyStringNotMissing_witness :
    (fillnaRow (⟨3, some "", some 30, some "", "2024-01-17", 3, "Books",
      some 25.00, "Maybe", some ""⟩ : Row)).name = some "" ∧
    (fillnaRow demoRow).name = some "Unknown Customer" :=
  ⟨emptyStringNotMissing.1 _ "" rfl, emptyStringNotMissing.2.2.1 demoRow rfl⟩

/-- Lengths are preserved by the purchase imputation. -/
theorem length_imputePurchase (l : List Row) : (imputePurchase l).length = l.length := by
  unfold imputePurchase
  cases median? (purchaseAmounts l) <;> simp

/-- The pipeline emits one cleaned row per deduplicated input row, whatever
its cells hold. -/
theorem length_cleanPipeline (l : List Row) :
    (cleanPipeline l).length = (dropDuplicates l).length := by
  simp [cleanPipeline, cleanStage5, normDates, normText, clampRatings, clampHigh,
    clampLow, repairAge, fillnaText, List.length_map, length_imputePurchase]

/-- C8: no cleaning step aborts: the pipeline always produces one output row
per deduplicated input row, every text-normalized row reaches the output
with its date cell converted independently of success, an unrecognized date
value degrades to the `none` marker, and on the literal dataset with its
first date made unparseable the run still cleans all six rows, that row
keeping all its other cleaned cells. -/
theorem dateFailureNonFatal :
    (∀ l : List Row, (cleanPipeline l).length = (dropDuplicates l).length) ∧
    (∀ l : List Row, ∀ r ∈ cleanStage5 l, RowG.mapDate parseDate r ∈ cleanPipeline l) ∧
    parseDate "not-a-date" = none ∧
    (cleanPipeline dataBadDate).length = 6 ∧
    (cleanPipeline dataBadDate)[0]? =
      some ⟨1, some "John Smith", some 25, some "john@email.com", none, 5,
        "Electronics", some 299.99, "Yes", some "Great product!"⟩ := by
  refine ⟨length_cleanPipeline, ?_, ?_, ?_, ?_⟩
  · intro l r hr
    exact List.mem_map.mpr ⟨r, hr, rfl⟩
  · decide
  · with_unfolding_all rfl
  · with_unfolding_all rfl

/-- Witness for C8 on a one-row list: the text-normalized demo row reaches
the pipeline output with its date parsed. -/
theorem dateFailureNonFatal_witness :
    RowG.mapDate parseDate (⟨8, some "B", some 40, some "b@b.c", "2024-01-02", 5,
      "Books", some 2, "No", some ""⟩ : Row) ∈ cleanPipeline [demoYoungRow] := by
  apply dateFailureNonFatal.2.1 [demoYoungRow]
  rw [show cleanStage5 [demoYoungRow] =
    [⟨8, some "B", some 40, some "b@b.c", "2024-01-02", 5,
      "Books", some 2, "No", some ""⟩] from by with_unfolding_all rfl]
  exact List.Mem.head _

/-! ### Date parsing lemmas -/

